import Mathlib

/-!
Verification of the eipi timed-assessment engine.

The definitions below are shallow embeddings of the TypeScript sources:
* `parseMarkdownQuestions` and its helpers embed
  `src/unnamed/part_001` (the questionParser service); the JavaScript
  regular expressions are modelled line by line over `List Char`, since
  none of the patterns involved can match across a line boundary on the
  documents considered here.
* `calculateResults`, `getStats`, `freemiumConfig`, `startExam` and the
  event-step functions embed the student portal
  (`src/unnamed/part_007`, with `src/components/StudentPortal.tsx` as a
  second variant where the two differ).
* `syncBank` embeds the bank-synchronisation step of `initData`
  (`src/unnamed/part_007` lines 106-121); the SHA-256 digest computed by
  the browser crypto API is abstracted as a function parameter.
-/

namespace Eipi

/-- Character-list shorthand used by the line-level parser model. -/
abbrev Chars := List Char

/-- Whitespace as matched by the JavaScript regex class matching blanks
(space, tab, carriage return, line feed cover the documents handled here). -/
def isWS (c : Char) : Bool :=
  c = ' ' || c = '\t' || c = '\r' || c = '\n'

/-- Drop leading and trailing whitespace, modelling `String.prototype.trim`. -/
def trimChars (l : Chars) : Chars :=
  ((l.dropWhile isWS).reverse.dropWhile isWS).reverse

/-- Split a character list on newline characters, yielding the lines of the
document (the `^`/`$` anchors of the multiline split regex see exactly these
lines). -/
def splitLines : Chars → List Chars
  | [] => [[]]
  | c :: t =>
    if c = '\n' then [] :: splitLines t
    else
      match splitLines t with
      | [] => [[c]]
      | l :: ls => (c :: l) :: ls

/-- Find the first occurrence of `pat` in a character list, returning the
text before the match and the text after it (models `String.match` /
`indexOf` for a literal pattern). -/
def findSub (pat : Chars) : Chars → Option (Chars × Chars)
  | [] => if pat = [] then some ([], []) else none
  | c :: t =>
    if pat.isPrefixOf (c :: t) then some ([], (c :: t).drop pat.length)
    else
      match findSub pat t with
      | some (pre, post) => some (c :: pre, post)
      | none => none

/-- Digits to a natural number, modelling `parseInt(-, 10)` on a digit run. -/
def digitsToNat (l : Chars) : Nat :=
  l.foldl (fun acc c => acc * 10 + (c.toNat - 48)) 0

/-- First line (in order) on which the matcher fires, with its result;
models a non-global regex search over a block whose pattern cannot cross
line boundaries. -/
def firstSome {α β : Type} (f : α → Option β) : List α → Option β
  | [] => none
  | a :: t =>
    match f a with
    | some b => some b
    | none => firstSome f t

/-- The `Question` record of `src/types.ts`. The `category` field is kept as
a raw string because the source casts the parsed text to the enum without
validation (`categoryStr as QuestionCategory`); `topic`/`explanation` are
`Option` because the source stores `undefined` for empty matches. -/
structure Question where
  id : String
  text : String
  options : List String
  correctAnswerIndex : Nat
  category : String
  topic : Option String
  explanation : Option String
  imageUrl : Option String
  sourcePage : Option Nat
  requiresImage : Bool
  reviewStatus : String
deriving DecidableEq, Repr

/-- Recognise a header line `## Question (\d+)\s*$`, returning the captured
digit run. -/
def headerNum (line : Chars) : Option Chars :=
  let pat := "## Question ".data
  if pat.isPrefixOf line then
    let rest := line.drop pat.length
    let ds := rest.takeWhile Char.isDigit
    let tl := rest.drop ds.length
    if ds ≠ [] ∧ tl.all isWS then some ds else none
  else none

/-- Lines of the current block: everything up to the next header line. -/
def takeBlock : List Chars → List Chars
  | [] => []
  | l :: ls => if (headerNum l).isSome then [] else l :: takeBlock ls

/-- Group the document lines into `(questionNumber, blockLines)` pairs.
Mirrors the splitting loop of `parseMarkdownQuestions`: content before the
first header is dropped, and a header that is the very last line of the
document produces no block (the `if (!block) continue` guard, since the
split leaves nothing after such a header). -/
def blocksFrom : List Chars → List (Chars × List Chars)
  | [] => []
  | l :: ls =>
    match headerNum l with
    | some n => if ls = [] then [] else (n, takeBlock ls) :: blocksFrom ls
    | none => blocksFrom ls

/-- Match the lazy topic/category pattern after the topic marker: the first
bar that is followed (after whitespace) by the category marker splits the
line; both captures are trimmed. -/
def findBarCat : Chars → Option (Chars × Chars)
  | [] => none
  | c :: t =>
    if c = '|' ∧ "**Category:**".data.isPrefixOf (t.dropWhile isWS) then
      some ([], (t.dropWhile isWS).drop "**Category:**".data.length)
    else
      match findBarCat t with
      | some (pre, post) => some (c :: pre, post)
      | none => none

/-- One line against the topic/category regex; the lazy topic capture and
the greedy category capture both require at least one character. -/
def matchTopicCategory (line : Chars) : Option (Chars × Chars) :=
  match findSub "**Topic:**".data line with
  | none => none
  | some (_, rest) =>
    match findBarCat rest with
    | none => none
    | some (tp, cat) =>
      if trimChars tp ≠ [] ∧ trimChars cat ≠ [] then
        some (trimChars tp, trimChars cat)
      else none

/-- One line against the source-page regex, capturing the digit run. -/
def matchSourcePage (line : Chars) : Option Nat :=
  match findSub "**Source Page:**".data line with
  | none => none
  | some (_, rest) =>
    let ds := (rest.dropWhile isWS).takeWhile Char.isDigit
    if ds = [] then none else some (digitsToNat ds)

/-- One line against the diagram-image regex, capturing the data URI. -/
def matchImage (line : Chars) : Option Chars :=
  match findSub "![Diagram](data:".data line with
  | none => none
  | some (_, rest) =>
    match findSub ")".data rest with
    | none => none
    | some (body, _) =>
      if body = [] then none else some ("data:".data ++ body)

/-- Scan a line for `>` whitespace `**Correct Answer:**` whitespace and a
letter A-E, returning the zero-based index of the letter. -/
def scanAnswer : Chars → Option Nat
  | [] => none
  | c :: t =>
    (if c = '>' then
      if "**Correct Answer:**".data.isPrefixOf (t.dropWhile isWS) then
        match ((t.dropWhile isWS).drop
            "**Correct Answer:**".data.length).dropWhile isWS with
        | ch :: _ =>
          if 65 ≤ ch.toNat ∧ ch.toNat ≤ 69 then some (ch.toNat - 65)
          else scanAnswer t
        | [] => scanAnswer t
      else scanAnswer t
    else scanAnswer t)

/-- Scan a line for `>` whitespace `**Explanation:**`, capturing the trimmed
remainder of the line. -/
def scanExplanation : Chars → Option Chars
  | [] => none
  | c :: t =>
    (if c = '>' then
      if "**Explanation:**".data.isPrefixOf (t.dropWhile isWS) then
        some (trimChars ((t.dropWhile isWS).drop "**Explanation:**".data.length))
      else scanExplanation t
    else scanExplanation t)

/-- Scan a line for the option pattern: a bold letter marker A-E followed by
at least one whitespace character and at least one further character; the
capture (the rest of the line) is trimmed. -/
def scanOption : Chars → Option Chars
  | [] => none
  | c :: t =>
    match c :: t with
    | '*' :: '*' :: ch :: '.' :: '*' :: '*' :: rest =>
      if ('A' ≤ ch ∧ ch ≤ 'E') ∧ (rest.head?.any isWS ∧ rest.length ≥ 2) then
        some (trimChars rest)
      else scanOption t
    | _ => scanOption t

/-- Earliest position of a bare option marker on a line (the `search` used
for the question-text cut does not require any text after the marker). -/
def optMarkerAt : Chars → Option Nat
  | [] => none
  | c :: t =>
    match c :: t with
    | '*' :: '*' :: ch :: '.' :: '*' :: '*' :: _ =>
      if 'A' ≤ ch ∧ ch ≤ 'E' then some 0
      else (optMarkerAt t).map (· + 1)
    | _ => (optMarkerAt t).map (· + 1)

/-- Earliest position of the literal `![Diagram]` on a line. -/
def imgMarkerAt (line : Chars) : Option Nat :=
  (findSub "![Diagram]".data line).map (fun p => p.1.length)

/-- Position where the question text is cut on a line: the earlier of the
first option marker and the first image marker, if any. -/
def lineCut (line : Chars) : Option Nat :=
  match optMarkerAt line, imgMarkerAt line with
  | some a, some b => some (min a b)
  | some a, none => some a
  | none, some b => some b
  | none, none => none

/-- Collect the question text from the lines following the metadata: lines
are joined with newlines until the first option/image marker, whose line
contributes only its prefix; if no marker exists anywhere the text is empty
(`textEnd` is `-1` in the source, failing the `textEnd > textStart` guard). -/
def collectText : List Chars → Option Chars
  | [] => none
  | l :: ls =>
    match lineCut l with
    | some k => some (l.take k)
    | none =>
      match collectText ls with
      | some rest => some (l ++ '\n' :: rest)
      | none => none

/-- Index of the last metadata line (topic/category or source-page match);
the question text starts after it.  Returns `none` when neither matches. -/
def metaEndIndex (lines : List Chars) : Option Nat :=
  let tcIdx := (lines.findIdx? (fun l => (matchTopicCategory l).isSome))
  let spIdx := (lines.findIdx? (fun l => (matchSourcePage l).isSome))
  match tcIdx, spIdx with
  | some a, some b => some (max a b)
  | some a, none => some a
  | none, some b => some b
  | none, none => none

/-- Question text of a block: starts right after the last metadata line and
ends at the first option or image marker.  If a marker occurs on or before a
metadata line the source's `textEnd > textStart` guard fails and the text is
empty. -/
def textOfBlock (lines : List Chars) : Chars :=
  match metaEndIndex lines with
  | none =>
    match collectText lines with
    | some t => trimChars t
    | none => []
  | some k =>
    if (lines.take (k + 1)).any (fun l => (lineCut l).isSome) then []
    else
      match collectText (lines.drop (k + 1)) with
      | some t => trimChars t
      | none => []

/-- Parse one question block, mirroring the body of the block loop of
`parseMarkdownQuestions` field by field.  A missing correct-answer match
defaults the letter to `A`, hence index `0`; `reviewStatus` is the constant
string `reviewed`. -/
def parseBlock (num : Chars) (lines : List Chars) : Question :=
  let tc := firstSome matchTopicCategory lines
  let topic := (tc.map (·.1)).getD []
  let category := (tc.map (·.2)).getD []
  let sp := firstSome matchSourcePage lines
  let img := firstSome matchImage lines
  let opts := lines.filterMap scanOption
  let ansIdx := (firstSome scanAnswer lines).getD 0
  let expl := (firstSome scanExplanation lines).getD []
  { id := ⟨'q' :: '-' :: num⟩
    text := ⟨textOfBlock lines⟩
    options := opts.map (fun o => ⟨o⟩)
    correctAnswerIndex := ansIdx
    category := ⟨category⟩
    topic := if topic = [] then none else some ⟨topic⟩
    explanation := if expl = [] then none else some ⟨expl⟩
    imageUrl := img.map (fun l => ⟨l⟩)
    sourcePage := sp
    requiresImage := img.isSome
    reviewStatus := "reviewed" }

/-- The markdown question parser of `src/unnamed/part_001`: split the
document into numbered blocks and parse each block independently. -/
def parseMarkdownQuestions (md : String) : List Question :=
  (blocksFrom (splitLines md.data)).map (fun p => parseBlock p.1 p.2)

/-- The sparse answer map `Record<string, number>` of the portal: absence of
a key means the question is unanswered. -/
abbrev AnsMap := List (String × Nat)

/-- Lookup in the answer record. -/
def ansLookup (ans : AnsMap) (k : String) : Option Nat :=
  match ans.find? (fun p => p.1 = k) with
  | some p => some p.2
  | none => none

/-- The correctness test `answers[q.id] === q.correctAnswerIndex`: an absent
answer compares unequal, so an unanswered question is incorrect. -/
def answeredCorrectly (ans : AnsMap) (q : Question) : Bool :=
  decide (ansLookup ans q.id = some q.correctAnswerIndex)

/-- The topic key `q.topic || 'General'`: an absent or empty topic falls back
to the default label. -/
def topicLabel (q : Question) : String :=
  match q.topic with
  | some t => if t = "" then "General" else t
  | none => "General"

/-- Per-topic `{ total, correct }` counters. -/
structure Tally where
  total : Nat
  correct : Nat
deriving DecidableEq, Repr

/-- Topic statistics in insertion order, modelling the plain-object record
whose `Object.entries` order is first-insertion order. -/
abbrev TMap := List (String × Tally)

/-- `topicStats[topic].total++` and conditional `correct++`, creating the
entry on first use. -/
def bumpTopic : TMap → String → Bool → TMap
  | [], tp, b => [(tp, ⟨1, if b then 1 else 0⟩)]
  | (t, s) :: rest, tp, b =>
    if t = tp then (t, ⟨s.total + 1, s.correct + if b then 1 else 0⟩) :: rest
    else (t, s) :: bumpTopic rest tp b

/-- The `ExamResult` record of the student portal. -/
structure ExamResult where
  email : String
  date : String
  score : Nat
  total : Nat
  percentage : Int
  topicStats : TMap
deriving DecidableEq, Repr, Inhabited

/-- One `forEach` iteration of `calculateResults`: bump the correct count
when the stored answer matches, and bump the topic tally. -/
def tallyStep (ans : AnsMap) (acc : Nat × TMap) (q : Question) : Nat × TMap :=
  (acc.1 + (if answeredCorrectly ans q then 1 else 0),
    bumpTopic acc.2 (topicLabel q) (answeredCorrectly ans q))

/-- The `forEach` accumulation of `calculateResults`: running correct count
and per-topic tallies, visiting the selected questions in order. -/
def tallyFold (ans : AnsMap) (qs : List Question) : Nat × TMap :=
  qs.foldl (tallyStep ans) (0, [])

/-- `calculateResults` of the student portal: score, totals, the rounded
percentage (`0` when no questions were selected, avoiding the division),
and the per-topic tally.  `Math.round` on the nonnegative quotient is
modelled by `round` on `ℚ` (round half up). -/
def calculateResults (email date : String) (qs : List Question) (ans : AnsMap) :
    ExamResult :=
  { email := email
    date := date
    score := (tallyFold ans qs).1
    total := qs.length
    percentage :=
      if qs.length > 0 then
        round ((((tallyFold ans qs).1 : ℚ) / (qs.length : ℚ)) * 100)
      else 0
    topicStats := (tallyFold ans qs).2 }

/-- Result of the freemium entitlement computation (`freemiumConfig` in
`src/unnamed/part_007`).  The JavaScript `Set` of allowed ids is modelled by
a list; only membership is meaningful. -/
structure FreemiumConfig where
  allowedIds : List String
  totalMistakes : Nat
  limit : Nat
deriving DecidableEq, Repr

/-- The entitlement gate: correctly answered questions are always allowed;
premium users get every id; otherwise the first
`min(5, ceil(totalMistakes / 2))` incorrect questions (in exam order) are
allowed in addition. -/
def freemiumConfig (premium : Bool) (qs : List Question) (ans : AnsMap) :
    FreemiumConfig :=
  let incorrectQs := qs.filter (fun q => !(answeredCorrectly ans q))
  let totalMistakes := incorrectQs.length
  if premium then
    { allowedIds := qs.map (fun q => q.id)
      totalMistakes := totalMistakes
      limit := totalMistakes }
  else
    let lim := min 5 ((totalMistakes + 1) / 2)
    { allowedIds :=
        (qs.filter (fun q => answeredCorrectly ans q)).map (fun q => q.id) ++
          (incorrectQs.take lim).map (fun q => q.id)
      totalMistakes := totalMistakes
      limit := lim }

/-- In-place swap of two positions, as performed by the destructuring swap
in the shuffle loop.  Out-of-range indices leave the list unchanged (the
source never produces them since `j ≤ i < length`). -/
def swapIdx {α : Type} (l : List α) (i j : Nat) : List α :=
  match l.get? i, l.get? j with
  | some a, some b => (l.set i b).set j a
  | _, _ => l

/-- The shuffle loop `for (i = n-1; i > 0; i--) swap(i, j)` with the random
draws `j = Math.floor(Math.random() * (i + 1))` supplied by a tape. -/
def fyLoop {α : Type} : List α → Nat → List Nat → List α
  | l, 0, _ => l
  | l, _ + 1, [] => l
  | l, i + 1, j :: rest => fyLoop (swapIdx l (i + 1) j) i rest

/-- The Fisher-Yates shuffle of `startExam` in `src/unnamed/part_007`. -/
def fisherYatesShuffle {α : Type} (tape : List Nat) (l : List α) : List α :=
  fyLoop l (l.length - 1) tape

/-- Insert an element into a list, consuming one coin per comparison: a
`true` coin models the random comparator returning a negative value (keep
the inserted element in front), `false` a positive value (move past). -/
def insertRand {α : Type} : List Bool → α → List α → List α × List Bool
  | coins, a, [] => ([a], coins)
  | [], a, b :: t => (a :: b :: t, [])
  | c :: cs, a, b :: t =>
    if c then (a :: b :: t, cs)
    else
      let r := insertRand cs a t
      (b :: r.1, r.2)

/-- Comparison sort driven by a coin tape. -/
def sortRand {α : Type} : List Bool → List α → List α × List Bool
  | coins, [] => ([], coins)
  | coins, a :: t =>
    let r := sortRand coins t
    insertRand r.2 a r.1

/-- The comparator-based random shuffle
`[...allQuestions].sort(() => 0.5 - Math.random())` of
`src/components/StudentPortal.tsx` line 126.  `Array.prototype.sort` with an
inconsistent comparator is implementation-defined; it is modelled here as an
insertion sort whose comparator outcomes are fair coins, which suffices to
exhibit the distributional behaviour of the comparator-sort approach. -/
def comparatorShuffle {α : Type} (coins : List Bool) (l : List α) : List α :=
  (sortRand coins l).1

/-- Lifecycle phase of the portal (`type ExamState`). -/
inductive ExamPhase
  | intro
  | active
  | result
deriving DecidableEq, Repr

/-- The session-relevant component state of the student portal. -/
structure PState where
  examState : ExamPhase
  questions : List Question
  answers : AnsMap
  flagged : List String
  currentQuestionIndex : Nat
  timeLeft : Nat
  cheatingAttempts : Nat
  isSubmitting : Bool
  showSubmitModal : Bool
  timedOut : Bool
  reviewMode : Bool
  history : List ExamResult
deriving DecidableEq, Repr

/-- Failure mode of `startExam`: the empty-bank rejection surfaced by the
alert `The question bank is empty...`. -/
inductive StartError
  | emptyBank
deriving DecidableEq, Repr

/-- `startExam`: reject an absent or empty bank without touching any state;
otherwise select `min(50, bankSize)` questions from a full shuffle of the
bank and reset the per-session state, entering the active phase. -/
def startExam (bank : Option (List Question)) (tape : List Nat) (s : PState) :
    PState × Option StartError :=
  match bank with
  | none => (s, some StartError.emptyBank)
  | some qs =>
    if qs.length = 0 then (s, some StartError.emptyBank)
    else
      ({ s with
          questions := (fisherYatesShuffle tape qs).take 50
          answers := []
          flagged := []
          currentQuestionIndex := 0
          cheatingAttempts := 0
          timeLeft := 60 * 60
          reviewMode := false
          isSubmitting := false
          showSubmitModal := false
          examState := ExamPhase.active }, none)

/-- `performSubmit`: set the submission-in-progress flag, close the modal,
compute the result, prepend it to the history, and enter the result phase. -/
def performSubmit (email date : String) (s : PState) : PState :=
  { s with
      isSubmitting := true
      showSubmitModal := false
      history := calculateResults email date s.questions s.answers :: s.history
      examState := ExamPhase.result
      reviewMode := false }

/-- One countdown tick.  The interval only exists while the exam is active
and no submission is in progress (the effect guard
`if (examState !== 'active' || isSubmitting) return`).  Reaching zero sets
the `timedOut` latch, which the dedicated effect immediately consumes by
resetting it and running the automatic submission; in the single-threaded
event model the state update and the effect it triggers form one atomic
step. -/
def tickSecond (email date : String) (s : PState) : PState :=
  if s.examState = ExamPhase.active ∧ s.isSubmitting = false then
    if s.timeLeft ≤ 1 then
      performSubmit email date { s with timeLeft := 0, timedOut := false }
    else { s with timeLeft := s.timeLeft - 1 }
  else s

/-- The confirm button of the submit modal: rendered only in the active
phase with the modal open, and disabled once `isSubmitting` is set. -/
def clickManualSubmit (email date : String) (s : PState) : PState :=
  if s.examState = ExamPhase.active ∧ s.showSubmitModal = true ∧
      s.isSubmitting = false then
    performSubmit email date s
  else s

/-- Bank metadata stored next to the cached question list. -/
structure BankMeta where
  version : String
  lastUpdated : String
  description : String
deriving DecidableEq, Repr

/-- The slice of the Content Store touched by the synchroniser. -/
structure ContentStore where
  liveBank : Option (List Question)
  liveMeta : Option BankMeta
deriving DecidableEq, Repr

/-- One successful-fetch pass of `initData` (`src/unnamed/part_007` lines
106-121): fingerprint the document, compare with the stored metadata
version, and parse-and-write only when the metadata is absent or the
fingerprints differ.  The SHA-256 digest of the browser crypto API is
abstracted as the `hash` parameter; the returned flag records whether a
write (and with it the parse) occurred. -/
def syncBank (hash : String → String) (now : String) (doc : String)
    (s : ContentStore) : ContentStore × Bool :=
  let h := hash doc
  match s.liveMeta with
  | some m =>
    if m.version = h then (s, false)
    else
      (⟨some (parseMarkdownQuestions doc),
        some ⟨h, now, "Parsed from bank.md"⟩⟩, true)
  | none =>
    (⟨some (parseMarkdownQuestions doc),
      some ⟨h, now, "Parsed from bank.md"⟩⟩, true)

/-- The three dashboard statistics returned by `getStats`. -/
structure DashStats where
  last : String
  avg : String
  bestTopic : String
deriving DecidableEq, Repr

/-- Merge one result's topic map into the running totals, entry by entry in
stored order (`Object.entries(h.topicStats).forEach`). -/
def addTallyEntry : TMap → String × Tally → TMap
  | [], e => [e]
  | (t, s) :: rest, (tp, st) =>
    if t = tp then (t, ⟨s.total + st.total, s.correct + st.correct⟩) :: rest
    else (t, s) :: addTallyEntry rest (tp, st)

/-- Combined topic totals over the whole history, most recent entry first. -/
def combinedTotals (history : List ExamResult) : TMap :=
  history.foldl (fun acc h => h.topicStats.foldl addTallyEntry acc) []

/-- The correct-over-total quotient used to rank topics, `0` for an empty
tally. -/
def topicFrac (st : Tally) : ℚ :=
  if st.total > 0 then (st.correct : ℚ) / (st.total : ℚ) else 0

/-- `String.prototype.split(' ')` on a single-space separator. -/
def splitOnSpace : Chars → List Chars
  | [] => [[]]
  | c :: t =>
    if c = ' ' then [] :: splitOnSpace t
    else
      match splitOnSpace t with
      | [] => [[c]]
      | l :: ls => (c :: l) :: ls

/-- The display transform `topic.split(' ')[1] || topic` applied to the
winning topic: the second space-separated word when it exists and is
nonempty, otherwise the full label. -/
def secondWord (tp : String) : String :=
  match splitOnSpace tp.data with
  | _ :: w :: _ => if w = [] then tp else ⟨w⟩
  | _ => tp

/-- The best-topic selection loop: strict improvement over the running best,
so the first topic attaining the maximal quotient wins ties; the stored name
goes through `secondWord`. -/
def bestTopicLoop (bt : String) (bp : ℚ) : TMap → String
  | [] => bt
  | (tp, st) :: rest =>
    if bp < topicFrac st then bestTopicLoop (secondWord tp) (topicFrac st) rest
    else bestTopicLoop bt bp rest

/-- `getStats` of the student portal: sentinels on an empty history,
otherwise the most recent percentage, the rounded unweighted average, and
the best topic of the combined totals. -/
def getStats (history : List ExamResult) : DashStats :=
  match history with
  | [] => { last := "--", avg := "0%", bestTopic := "N/A" }
  | h0 :: _ =>
    { last := toString h0.percentage ++ "%"
      avg :=
        toString (round ((((history.map (fun h => h.percentage)).sum : ℤ) : ℚ) /
          (history.length : ℚ))) ++ "%"
      bestTopic := bestTopicLoop "N/A" (-1) (combinedTotals history) }

/-- Lookup of a topic entry in a topic map (`topicStats[topic]`). -/
def lookupTally : TMap → String → Option Tally
  | [], _ => none
  | e :: rest, tp => if e.1 = tp then some e.2 else lookupTally rest tp

/-- Combine an existing optional tally with `c` further questions of the
topic, `d` of them correct; used to state how the fold extends a map. -/
def mergeT (o : Option Tally) (c d : Nat) : Option Tally :=
  match o with
  | some s => some ⟨s.total + c, s.correct + d⟩
  | none => if c = 0 then none else some ⟨c, d⟩

/-- Specification-side selection of the best topic: the first entry whose
quotient strictly exceeds the running bound and is maximal among the
remaining entries (the running-maximum recursion of the display loop). -/
def firstStrictMax (bp : ℚ) : TMap → Option (String × Tally)
  | [] => none
  | e :: t =>
    if bp < topicFrac e.2 then
      match firstStrictMax (topicFrac e.2) t with
      | none => some e
      | some b => some b
    else firstStrictMax bp t

/-- Whether the final line of a document is a question header (such a
header yields no block, because the split leaves nothing after it). -/
def lastLineIsHeader (s : String) : Bool :=
  match (splitLines s.data).getLast? with
  | some l => (headerNum l).isSome
  | none => false

/-- Whether the first line of a document is a question header. -/
def firstLineIsHeader (s : String) : Bool :=
  match (splitLines s.data).head? with
  | some l => (headerNum l).isSome
  | none => false

/-- The six random tapes a three-element Fisher-Yates shuffle can draw
(`j ∈ [0, i]` at positions `i = 2, 1`), each equally likely under a uniform
random source. -/
def fyTapes3 : List (List Nat) :=
  [[0, 0], [0, 1], [1, 0], [1, 1], [2, 0], [2, 1]]

/-- The eight equally likely outcomes of three fair comparator coins. -/
def coinTapes3 : List (List Bool) :=
  [[false, false, false], [false, false, true], [false, true, false],
   [false, true, true], [true, false, false], [true, false, true],
   [true, true, false], [true, true, true]]

/-- The six permutations of `[0, 1, 2]`. -/
def perms3 : List (List Nat) :=
  [[0, 1, 2], [0, 2, 1], [1, 0, 2], [1, 2, 0], [2, 0, 1], [2, 1, 0]]

/-- A bank document whose single block has options but no correct-answer
line: the parser must default the answer. -/
def exDocNoAnswer : String :=
  "## Question 1\n**Topic:** Algebra | **Category:** Mathematics\nWhat is it?\n**A.** one\n**B.** two\n"

/-- A bank document whose single block has four options but names `E` as
the correct answer: the resulting index `4` is out of bounds for the four
options. -/
def exDocBadIndex : String :=
  "## Question 1\nBody text\n**A.** a\n**B.** b\n**C.** c\n**D.** d\n> **Correct Answer:** E\n"

/-- A one-entry history whose only (hence strongest) topic has a two-word
label. -/
def exHistoryMultiword : List ExamResult :=
  [⟨"e", "d", 1, 1, 100, [("Number Theory", ⟨1, 1⟩)]⟩]

/-- A document ending in a malformed block: no option markers and no
correct-answer line. -/
def exRecoveryA : String :=
  "# preamble\n## Question 1\ngarbage line without markers"

/-- A well-formed document starting with a header line. -/
def exRecoveryB : String :=
  "## Question 2\n**A.** x\n**B.** y\n> **Correct Answer:** B"

/-- Three small questions with distinct ids used to exercise the portal
functions on concrete data. -/
def wQs : List Question :=
  [⟨"q-1", "one", ["a", "b"], 0, "Mathematics", some "Algebra", none, none,
      none, false, "reviewed"⟩,
   ⟨"q-2", "two", ["a", "b", "c"], 1, "Mathematics", some "Geometry", none,
      none, none, false, "reviewed"⟩,
   ⟨"q-3", "three", ["a", "b"], 1, "Mathematics", none, none, none, none,
      false, "reviewed"⟩]

/-- Concrete answers: first question answered correctly, second answered
incorrectly, third left unanswered. -/
def wAns : AnsMap := [("q-1", 0), ("q-2", 2)]

/-- The idle portal state right after mount. -/
def s0 : PState :=
  ⟨ExamPhase.intro, [], [], [], 0, 3600, 0, false, false, false, false, []⟩

/-- An active session in its final second with the submit modal open. -/
def sActive : PState :=
  { s0 with
      examState := ExamPhase.active
      questions := wQs
      answers := wAns
      showSubmitModal := true
      timeLeft := 1 }

/-- An active session whose submission is already in progress. -/
def sSubmitting : PState :=
  { sActive with isSubmitting := true }

/-- A two-entry history (most recent first) with overlapping topics. -/
def wHist : List ExamResult :=
  [⟨"e", "d", 2, 3, 67, [("Algebra", ⟨2, 1⟩), ("Geometry", ⟨1, 1⟩)]⟩,
   ⟨"e", "d", 1, 3, 33, [("Algebra", ⟨3, 2⟩)]⟩]

theorem cons_set_perm {α : Type} :
    ∀ (xs : List α) (m : Nat) (h : m < xs.length) (b : α),
      (xs.get ⟨m, h⟩ :: xs.set m b).Perm (b :: xs)
  | x :: t, 0, _, b => List.Perm.swap b x t
  | x :: t, m + 1, h, b => by
    have hm : m < t.length := Nat.succ_lt_succ_iff.mp h
    have ih := cons_set_perm t m hm b
    show (t.get ⟨m, hm⟩ :: x :: t.set m b).Perm (b :: x :: t)
    exact ((List.Perm.swap x (t.get ⟨m, hm⟩) (t.set m b)).trans
      (ih.cons x)).trans (List.Perm.swap b x t)

theorem set_set_perm {α : Type} :
    ∀ (l : List α) (i j : Nat) (hi : i < l.length) (hj : j < l.length),
      ((l.set i (l.get ⟨j, hj⟩)).set j (l.get ⟨i, hi⟩)).Perm l
  | x :: t, 0, 0, _, _ => List.Perm.refl (x :: t)
  | x :: t, 0, j + 1, _, hj =>
    cons_set_perm t j (Nat.succ_lt_succ_iff.mp hj) x
  | x :: t, i + 1, 0, hi, _ =>
    cons_set_perm t i (Nat.succ_lt_succ_iff.mp hi) x
  | x :: t, i + 1, j + 1, hi, hj =>
    List.Perm.cons x
      (set_set_perm t i j (Nat.succ_lt_succ_iff.mp hi)
        (Nat.succ_lt_succ_iff.mp hj))

theorem swapIdx_perm {α : Type} (l : List α) (i j : Nat) :
    (swapIdx l i j).Perm l := by
  unfold swapIdx
  split
  next a b hia hjb =>
    obtain ⟨hi2, ha⟩ := List.get?_eq_some.mp hia
    obtain ⟨hj2, hb⟩ := List.get?_eq_some.mp hjb
    rw [← ha, ← hb]
    exact set_set_perm l i j hi2 hj2
  next => exact List.Perm.refl l

theorem fyLoop_perm {α : Type} :
    ∀ (tape : List Nat) (l : List α) (i : Nat), (fyLoop l i tape).Perm l
  | _, l, 0 => List.Perm.refl l
  | [], l, _ + 1 => List.Perm.refl l
  | j :: rest, l, i + 1 =>
    (fyLoop_perm rest (swapIdx l (i + 1) j) i).trans (swapIdx_perm l (i + 1) j)

theorem fisherYatesShuffle_perm {α : Type} (tape : List Nat) (l : List α) :
    (fisherYatesShuffle tape l).Perm l :=
  fyLoop_perm tape l (l.length - 1)

/-- C4: a session started from a bank of size `n` selects exactly
`min 50 n` questions, the selection is a sub-permutation of the bank (each
bank question is used at most once), and distinct bank ids yield distinct
selected ids. -/
theorem C4_selection (bank : List Question) (tape : List Nat) (s : PState)
    (hne : bank ≠ []) :
    (startExam (some bank) tape s).1.questions.length = min 50 bank.length ∧
    List.Subperm (startExam (some bank) tape s).1.questions bank ∧
    ((bank.map (fun q => q.id)).Nodup →
      ((startExam (some bank) tape s).1.questions.map (fun q => q.id)).Nodup) := by
  have hlen : ¬ bank.length = 0 := by simpa using hne
  have hq : (startExam (some bank) tape s).1.questions =
      (fisherYatesShuffle tape bank).take 50 := by
    simp [startExam, hlen]
  have hperm := fisherYatesShuffle_perm tape bank
  refine ⟨?_, ?_, ?_⟩
  · rw [hq, List.length_take, hperm.length_eq]
  · rw [hq]
    exact ((List.take_sublist 50 _).subperm).trans hperm.subperm
  · intro hnd
    rw [hq]
    have h1 : ((fisherYatesShuffle tape bank).map (fun q => q.id)).Nodup :=
      ((hperm.map (fun q => q.id)).nodup_iff).mpr hnd
    exact List.Nodup.sublist ((List.take_sublist 50 _).map _) h1

theorem C4_selection_witness :
    wQs ≠ [] ∧
    ((startExam (some wQs) [] s0).1.questions.length = min 50 wQs.length ∧
      List.Subperm (startExam (some wQs) [] s0).1.questions wQs ∧
      ((wQs.map (fun q => q.id)).Nodup →
        ((startExam (some wQs) [] s0).1.questions.map (fun q => q.id)).Nodup)) :=
  ⟨by decide, C4_selection wQs [] s0 (by decide)⟩

theorem lookupTally_bumpTopic (m : TMap) (tp tpb : String) (b : Bool) :
    lookupTally (bumpTopic m tpb b) tp =
      if tp = tpb then
        some (match lookupTally m tp with
          | none => ⟨1, if b then 1 else 0⟩
          | some s => ⟨s.total + 1, s.correct + if b then 1 else 0⟩)
      else lookupTally m tp := by
  induction m with
  | nil =>
    by_cases h : tp = tpb
    · subst h; simp [bumpTopic, lookupTally]
    · have h2 : ¬ tpb = tp := fun he => h he.symm
      simp [bumpTopic, lookupTally, h, h2]
  | cons e rest ih =>
    obtain ⟨t, s⟩ := e
    by_cases h1 : t = tpb
    · subst h1
      by_cases h2 : tp = t
      · subst h2; simp [bumpTopic, lookupTally]
      · have h3 : ¬ t = tp := fun he => h2 he.symm
        simp [bumpTopic, lookupTally, h2, h3]
    · by_cases h2 : t = tp
      · subst h2
        simp [bumpTopic, lookupTally, h1]
      · simp [bumpTopic, lookupTally, h1, h2, ih]

theorem tallyStep_foldl (ans : AnsMap) :
    ∀ (qs : List Question) (n : Nat) (m : TMap),
      (List.foldl (tallyStep ans) (n, m) qs).1 =
        n + (qs.filter (fun q => answeredCorrectly ans q)).length ∧
      ∀ tp, lookupTally (List.foldl (tallyStep ans) (n, m) qs).2 tp =
        mergeT (lookupTally m tp)
          ((qs.filter (fun q => decide (topicLabel q = tp))).length)
          ((qs.filter (fun q =>
            decide (topicLabel q = tp) && answeredCorrectly ans q)).length) := by
  intro qs
  induction qs with
  | nil =>
    intro n m
    refine ⟨by simp, fun tp => ?_⟩
    rcases h : lookupTally m tp with _ | s <;> simp [mergeT, h]
  | cons q rest ih =>
    intro n m
    constructor
    · simp only [List.foldl_cons, tallyStep]
      rw [(ih _ _).1, List.filter_cons]
      rcases hc : answeredCorrectly ans q with _ | _ <;> simp [hc] <;> omega
    · intro tp
      simp only [List.foldl_cons, tallyStep]
      rw [(ih _ _).2 tp, lookupTally_bumpTopic, List.filter_cons,
        List.filter_cons]
      by_cases htp : topicLabel q = tp
      · subst htp
        rcases hc : answeredCorrectly ans q with _ | _ <;>
          rcases hl : lookupTally m (topicLabel q) with _ | sv <;>
            simp [hc, hl, mergeT, Tally.mk.injEq] <;> omega
      · have htp2 : ¬ tp = topicLabel q := fun he => htp he.symm
        simp [htp, htp2]

theorem round_le_bounds (x : ℚ) (h0 : 0 ≤ x) (h1 : x ≤ 100) :
    0 ≤ round x ∧ round x ≤ 100 := by
  rw [round_eq]
  refine ⟨Int.le_floor.mpr (by push_cast; linarith), ?_⟩
  have h2 : ⌊x + 1 / 2⌋ < (101 : ℤ) := Int.floor_lt.mpr (by push_cast; linarith)
  omega

/-- C1: scoring counts a question correct exactly when the stored answer
index equals the question's correct index (unanswered counts as
incorrect); the percentage is `round(100 * correct / total)`, `0` for an
empty selection, and always between `0` and `100`; and the per-topic map
carries `{ total, correct }` counts keyed by the topic label with the
`General` fallback. -/
theorem C1_scoring (email date : String) (qs : List Question) (ans : AnsMap) :
    (calculateResults email date qs ans).score =
      (qs.filter (fun q => answeredCorrectly ans q)).length ∧
    (calculateResults email date qs ans).total = qs.length ∧
    (qs.length = 0 → (calculateResults email date qs ans).percentage = 0) ∧
    (qs.length ≠ 0 → (calculateResults email date qs ans).percentage =
      round ((100 * ((qs.filter (fun q => answeredCorrectly ans q)).length : ℚ))
        / (qs.length : ℚ))) ∧
    0 ≤ (calculateResults email date qs ans).percentage ∧
    (calculateResults email date qs ans).percentage ≤ 100 ∧
    (∀ tp, lookupTally (calculateResults email date qs ans).topicStats tp =
      if (qs.filter (fun q => decide (topicLabel q = tp))).length = 0 then none
      else some ⟨(qs.filter (fun q => decide (topicLabel q = tp))).length,
        (qs.filter (fun q =>
          decide (topicLabel q = tp) && answeredCorrectly ans q)).length⟩) := by
  have hfold := tallyStep_foldl ans qs 0 []
  have hfold1 : (tallyFold ans qs).1 =
      (qs.filter (fun q => answeredCorrectly ans q)).length := by
    simpa [tallyFold] using hfold.1
  have hscore : (calculateResults email date qs ans).score =
      (qs.filter (fun q => answeredCorrectly ans q)).length := hfold1
  have harg : (((tallyFold ans qs).1 : ℚ) / (qs.length : ℚ)) * 100 =
      (100 * ((qs.filter (fun q => answeredCorrectly ans q)).length : ℚ))
        / (qs.length : ℚ) := by
    rw [hfold1, div_mul_eq_mul_div, mul_comm]
  have hbounds : 0 ≤ (calculateResults email date qs ans).percentage ∧
      (calculateResults email date qs ans).percentage ≤ 100 := by
    rcases Nat.eq_zero_or_pos qs.length with h0 | hpos
    · simp [calculateResults, h0]
    · have hlen : (tallyFold ans qs).1 ≤ qs.length := by
        rw [hfold1]; exact List.length_filter_le _ qs
      have hle : ((tallyFold ans qs).1 : ℚ) ≤ (qs.length : ℚ) := by
        exact_mod_cast hlen
      have hlpos : (0 : ℚ) < (qs.length : ℚ) := by exact_mod_cast hpos
      have hx0 : (0 : ℚ) ≤
          (((tallyFold ans qs).1 : ℚ) / (qs.length : ℚ)) * 100 := by positivity
      have hx1 : (((tallyFold ans qs).1 : ℚ) / (qs.length : ℚ)) * 100 ≤ 100 := by
        have hq : ((tallyFold ans qs).1 : ℚ) / (qs.length : ℚ) ≤ 1 :=
          (div_le_one hlpos).mpr hle
        nlinarith
      have hb := round_le_bounds _ hx0 hx1
      constructor
      · simpa [calculateResults, hpos] using hb.1
      · simpa [calculateResults, hpos] using hb.2
  refine ⟨hscore, rfl, ?_, ?_, hbounds.1, hbounds.2, ?_⟩
  · intro h0; simp [calculateResults, h0]
  · intro hne
    have hpos : 0 < qs.length := Nat.pos_of_ne_zero hne
    simp [calculateResults, hpos, harg]
  · intro tp
    have h2 : lookupTally (tallyFold ans qs).2 tp =
        mergeT none ((qs.filter (fun q => decide (topicLabel q = tp))).length)
          ((qs.filter (fun q =>
            decide (topicLabel q = tp) && answeredCorrectly ans q)).length) := by
      simpa [tallyFold, lookupTally] using hfold.2 tp
    show lookupTally (tallyFold ans qs).2 tp = _
    rw [h2]
    rfl

theorem C1_scoring_witness :
    (wQs.length ≠ 0 ∧ (calculateResults "e" "d" wQs wAns).percentage =
      round ((100 * ((wQs.filter (fun q => answeredCorrectly wAns q)).length : ℚ))
        / (wQs.length : ℚ))) ∧
    (calculateResults "e" "d" wQs wAns).score =
      (wQs.filter (fun q => answeredCorrectly wAns q)).length :=
  ⟨⟨by decide, (C1_scoring "e" "d" wQs wAns).2.2.2.1 (by decide)⟩,
    (C1_scoring "e" "d" wQs wAns).1⟩

theorem filter_eq_take_of_iff {α : Type} [DecidableEq α] :
    ∀ (l : List α) (k : Nat) (p : α → Bool), l.Nodup →
      (∀ x ∈ l, p x = true ↔ x ∈ l.take k) → l.filter p = l.take k
  | [], k, p, _, _ => by simp
  | x :: t, 0, p, hnd, h => by
    have hx : p x = false := by
      have := h x (List.mem_cons_self x t)
      simpa using this
    have ih := filter_eq_take_of_iff t 0 p (List.nodup_cons.mp hnd).2
      (fun y hy => by
        have := h y (List.mem_cons_of_mem x hy)
        simpa using this)
    simpa [List.filter_cons, hx] using ih
  | x :: t, k + 1, p, hnd, h => by
    have hx : p x = true := (h x (List.mem_cons_self x t)).mpr (by simp)
    have hxt : x ∉ t := (List.nodup_cons.mp hnd).1
    have ih := filter_eq_take_of_iff t k p (List.nodup_cons.mp hnd).2
      (fun y hy => by
        have hyx : y ≠ x := fun he => hxt (he ▸ hy)
        have := h y (List.mem_cons_of_mem x hy)
        simpa [hyx] using this)
    simp [List.filter_cons, hx, ih]

/-- C2: the allowed review set always contains every correctly answered
question; a premium tier gets every question (in particular every incorrect
one); a free tier gets exactly the first `min(5, ceil(mistakes / 2))`
incorrect questions in exam order — with seven mistakes, exactly the first
four. -/
theorem C2_entitlement (premium : Bool) (qs : List Question) (ans : AnsMap)
    (hids : (qs.map (fun q => q.id)).Nodup) :
    (∀ q ∈ qs, answeredCorrectly ans q = true →
      q.id ∈ (freemiumConfig premium qs ans).allowedIds) ∧
    (premium = true →
      ∀ q ∈ qs, q.id ∈ (freemiumConfig premium qs ans).allowedIds) ∧
    (premium = false →
      (freemiumConfig premium qs ans).limit =
        min 5 (((freemiumConfig premium qs ans).totalMistakes + 1) / 2) ∧
      ((freemiumConfig premium qs ans).totalMistakes = 7 →
        (freemiumConfig premium qs ans).limit = 4) ∧
      ((qs.filter (fun q => !(answeredCorrectly ans q))).take
          (freemiumConfig premium qs ans).limit).length =
        (freemiumConfig premium qs ans).limit ∧
      (qs.filter (fun q => !(answeredCorrectly ans q))).filter
          (fun q => decide (q.id ∈ (freemiumConfig premium qs ans).allowedIds)) =
        (qs.filter (fun q => !(answeredCorrectly ans q))).take
          (freemiumConfig premium qs ans).limit) := by
  have hinj := List.inj_on_of_nodup_map hids
  rcases premium with _ | _
  · have hfc : freemiumConfig false qs ans =
        ⟨(qs.filter (fun q => answeredCorrectly ans q)).map (fun q => q.id) ++
            ((qs.filter (fun q => !(answeredCorrectly ans q))).take
              (min 5
                (((qs.filter (fun q =>
                  !(answeredCorrectly ans q))).length + 1) / 2))).map
              (fun q => q.id),
          (qs.filter (fun q => !(answeredCorrectly ans q))).length,
          min 5
            (((qs.filter (fun q =>
              !(answeredCorrectly ans q))).length + 1) / 2)⟩ := by
      simp [freemiumConfig]
    refine ⟨?_, by simp, ?_⟩
    · intro q hq hc
      rw [hfc]
      exact List.mem_append_left _
        (List.mem_map_of_mem _ (List.mem_filter.mpr ⟨hq, hc⟩))
    · intro _
      refine ⟨by rw [hfc], ?_, ?_, ?_⟩
      · intro h7
        rw [hfc] at h7 ⊢
        simp only at h7 ⊢
        omega
      · rw [hfc]
        simp only [List.length_take]
        omega
      · simp only [hfc]
        refine filter_eq_take_of_iff _ _ _
          ((List.Nodup.of_map _ hids).filter _) ?_
        intro x hx
        have hxq : x ∈ qs := (List.mem_filter.mp hx).1
        have hxw : answeredCorrectly ans x = false := by
          have := (List.mem_filter.mp hx).2
          simpa using this
        simp only [decide_eq_true_eq, List.mem_append]
        constructor
        · rintro (hmem | hmem)
          · exfalso
            obtain ⟨y, hy, hye⟩ := List.mem_map.mp hmem
            have hyq : y ∈ qs := (List.mem_filter.mp hy).1
            have : y = x := hinj hyq hxq hye
            rw [this] at hy
            have := (List.mem_filter.mp hy).2
            rw [hxw] at this
            exact Bool.false_ne_true this
          · obtain ⟨y, hy, hye⟩ := List.mem_map.mp hmem
            have hyq : y ∈ qs :=
              (List.mem_filter.mp (List.mem_of_mem_take hy)).1
            have : y = x := hinj hyq hxq hye
            exact this ▸ hy
        · intro hmem
          exact Or.inr (List.mem_map_of_mem _ hmem)
  · have hft : freemiumConfig true qs ans =
        ⟨qs.map (fun q => q.id),
          (qs.filter (fun q => !(answeredCorrectly ans q))).length,
          (qs.filter (fun q => !(answeredCorrectly ans q))).length⟩ := by
      simp [freemiumConfig]
    refine ⟨?_, ?_, by simp⟩
    · intro q hq _
      rw [hft]
      exact List.mem_map_of_mem _ hq
    · intro _ q hq
      rw [hft]
      exact List.mem_map_of_mem _ hq

theorem C2_entitlement_witness :
    ((wQs.map (fun q => q.id)).Nodup ∧
      (∀ q ∈ wQs, answeredCorrectly wAns q = true →
        q.id ∈ (freemiumConfig false wQs wAns).allowedIds)) ∧
    (false = false →
      (freemiumConfig false wQs wAns).limit =
        min 5 (((freemiumConfig false wQs wAns).totalMistakes + 1) / 2) ∧
      ((freemiumConfig false wQs wAns).totalMistakes = 7 →
        (freemiumConfig false wQs wAns).limit = 4) ∧
      ((wQs.filter (fun q => !(answeredCorrectly wAns q))).take
          (freemiumConfig false wQs wAns).limit).length =
        (freemiumConfig false wQs wAns).limit ∧
      (wQs.filter (fun q => !(answeredCorrectly wAns q))).filter
          (fun q => decide (q.id ∈ (freemiumConfig false wQs wAns).allowedIds)) =
        (wQs.filter (fun q => !(answeredCorrectly wAns q))).take
          (freemiumConfig false wQs wAns).limit) :=
  ⟨⟨by decide, (C2_entitlement false wQs wAns (by decide)).1⟩,
    (C2_entitlement false wQs wAns (by decide)).2.2⟩

/-- C9: starting from an absent or empty bank surfaces the empty-bank
failure and leaves the whole state unchanged — no session is created, the
phase, question list, answers, flags and timer all keep their values. -/
theorem C9_empty_bank (bank : Option (List Question)) (tape : List Nat)
    (s : PState) (h : bank = none ∨ bank = some []) :
    startExam bank tape s = (s, some StartError.emptyBank) := by
  rcases h with h | h <;> subst h <;> simp [startExam]

theorem C9_empty_bank_witness :
    ((some ([] : List Question) = none ∨ some ([] : List Question) = some []) ∧
      startExam (some []) [] s0 = (s0, some StartError.emptyBank)) :=
  ⟨Or.inr rfl, C9_empty_bank (some []) [] s0 (Or.inr rfl)⟩

/-- C3: on a three-question bank, the Fisher-Yates path of
`src/unnamed/part_007` realises every permutation from exactly one random
tape (uniform over a uniform tape), while the comparator-sort path of
`src/components/StudentPortal.tsx` line 126, driven by fair comparator
coins, does not give all permutations the same number of outcomes — its
distribution is not uniform, contradicting the claim that no code path
shuffles via a comparator-based random sort. -/
theorem C3_shuffle_bug :
    (∀ p ∈ perms3,
      ((fyTapes3.map (fun t => fisherYatesShuffle t [0, 1, 2])).count p) = 1) ∧
    ¬ (∀ p ∈ perms3, ∀ q ∈ perms3,
      ((coinTapes3.map (fun t => comparatorShuffle t [0, 1, 2])).count p) =
        ((coinTapes3.map (fun t => comparatorShuffle t [0, 1, 2])).count q)) := by
  decide

/-- C5: in the serialized event model, when the countdown reaches zero and
the manual confirm happen in the same tick, either order appends exactly
one result to the history; and once the submission-in-progress flag is set,
both the countdown tick and the manual submit button are no-ops. -/
theorem C5_single_submit (email date : String) (s : PState) :
    (s.examState = ExamPhase.active → s.isSubmitting = false →
      s.showSubmitModal = true → s.timeLeft = 1 →
      (clickManualSubmit email date (tickSecond email date s)).history.length
          = s.history.length + 1 ∧
      (tickSecond email date (clickManualSubmit email date s)).history.length
          = s.history.length + 1) ∧
    (s.isSubmitting = true →
      tickSecond email date s = s ∧ clickManualSubmit email date s = s) := by
  constructor
  · intro ha hs hm ht
    constructor
    · simp [tickSecond, clickManualSubmit, performSubmit, ha, hs, ht]
    · simp [tickSecond, clickManualSubmit, performSubmit, ha, hs, hm]
  · intro hs
    constructor <;> simp [tickSecond, clickManualSubmit, hs]

theorem C5_single_submit_witness :
    (sActive.examState = ExamPhase.active ∧ sActive.isSubmitting = false ∧
      sActive.showSubmitModal = true ∧ sActive.timeLeft = 1 ∧
      ((clickManualSubmit "e" "d" (tickSecond "e" "d" sActive)).history.length
          = sActive.history.length + 1 ∧
        (tickSecond "e" "d" (clickManualSubmit "e" "d" sActive)).history.length
          = sActive.history.length + 1)) ∧
    (sSubmitting.isSubmitting = true ∧
      (tickSecond "e" "d" sSubmitting = sSubmitting ∧
        clickManualSubmit "e" "d" sSubmitting = sSubmitting)) :=
  ⟨⟨rfl, rfl, rfl, rfl, (C5_single_submit "e" "d" sActive).1 rfl rfl rfl rfl⟩,
   ⟨rfl, (C5_single_submit "e" "d" sSubmitting).2 rfl⟩⟩

/-- C6: a sync writes exactly when the stored fingerprint is absent or
differs from the computed one; re-syncing the unchanged document never
writes a second time, so two passes over the same document from a stale or
empty store perform exactly one write (and only a writing pass parses). -/
theorem C6_sync_idempotent (hash : String → String) (now now2 doc : String)
    (s : ContentStore) :
    ((syncBank hash now doc s).2 = false ↔
      ∃ m, s.liveMeta = some m ∧ m.version = hash doc) ∧
    (syncBank hash now2 doc (syncBank hash now doc s).1).2 = false ∧
    ((s.liveMeta = none ∨ ∃ m, s.liveMeta = some m ∧ m.version ≠ hash doc) →
      ((if (syncBank hash now doc s).2 then 1 else 0) +
        (if (syncBank hash now2 doc (syncBank hash now doc s).1).2 then 1
          else 0) = (1 : Nat))) := by
  rcases hm : s.liveMeta with _ | m
  · simp [syncBank, hm]
  · by_cases hv : m.version = hash doc
    · simp [syncBank, hm, hv]
    · simp [syncBank, hm, hv]

theorem C6_sync_idempotent_witness :
    ((Option.none = (none : Option BankMeta) ∨
        ∃ m, (none : Option BankMeta) = some m ∧ m.version ≠ "d") ∧
      ((if (syncBank (fun _ => "d") "t1" "doc" ⟨none, none⟩).2 then 1 else 0) +
        (if (syncBank (fun _ => "d") "t2" "doc"
              (syncBank (fun _ => "d") "t1" "doc" ⟨none, none⟩).1).2 then 1
          else 0) = (1 : Nat))) :=
  ⟨Or.inl rfl,
    (C6_sync_idempotent (fun _ => "d") "t1" "t2" "doc" ⟨none, none⟩).2.2
      (Or.inl rfl)⟩

theorem scanAnswer_le : ∀ (l : Chars) (r : Nat), scanAnswer l = some r → r ≤ 4
  | [], r, h => by simp [scanAnswer] at h
  | c :: t, r, h => by
    rw [scanAnswer] at h
    split at h
    · split at h
      · split at h
        · split at h
          next hrange =>
            injection h with h2
            omega
          next => exact scanAnswer_le t r h
        · exact scanAnswer_le t r h
      · exact scanAnswer_le t r h
    · exact scanAnswer_le t r h

theorem firstSome_eq_some {α β : Type} (f : α → Option β) :
    ∀ (l : List α) (b : β), firstSome f l = some b → ∃ a ∈ l, f a = some b
  | [], b, h => by simp [firstSome] at h
  | a :: t, b, h => by
    rw [firstSome] at h
    rcases hf : f a with _ | v
    · rw [hf] at h
      obtain ⟨x, hx, hfx⟩ := firstSome_eq_some f t b h
      exact ⟨x, List.mem_cons_of_mem a hx, hfx⟩
    · rw [hf] at h
      simp at h
      exact ⟨a, List.mem_cons_self a t, by rw [hf, h]⟩

/-- C8 (amended): every parsed question has a correct-answer index between
`0` and `4` — the index comes from a letter A-E or the default A — but the
parser performs no bounds check against the option count, so the stronger
invariant `index < options.length` of the claim can fail
(see the counterexample). -/
theorem C8_answer_bound (md : String) (q : Question)
    (hq : q ∈ parseMarkdownQuestions md) : q.correctAnswerIndex ≤ 4 := by
  obtain ⟨p, hp, hpe⟩ := List.mem_map.mp hq
  have hidx : q.correctAnswerIndex = (firstSome scanAnswer p.2).getD 0 := by
    rw [← hpe]
    rfl
  rcases hf : firstSome scanAnswer p.2 with _ | r
  · rw [hidx, hf]; simp
  · obtain ⟨l, _, hl⟩ := firstSome_eq_some scanAnswer p.2 r hf
    rw [hidx, hf]
    simpa using scanAnswer_le l r hl

/-- The single question parsed from `exDocBadIndex`. -/
def qBadIndex : Question :=
  ⟨"q-1", "Body text", ["a", "b", "c", "d"], 4, "", none, none, none, none,
    false, "reviewed"⟩

theorem C8_answer_bound_witness :
    qBadIndex ∈ parseMarkdownQuestions exDocBadIndex ∧
      qBadIndex.correctAnswerIndex ≤ 4 :=
  ⟨by decide, C8_answer_bound exDocBadIndex qBadIndex (by decide)⟩

/-- C8 counterexample: on `exDocBadIndex` (four options, correct-answer
letter `E`) the parser emits a question violating
`correctAnswerIndex < options.length` — the index is not bounds-checked
against the actual option count. -/
theorem C8_counterexample :
    ∃ q ∈ parseMarkdownQuestions exDocBadIndex,
      ¬ (q.correctAnswerIndex < q.options.length) := by decide

theorem splitLines_ne_nil : ∀ l : Chars, splitLines l ≠ []
  | [] => by simp [splitLines]
  | c :: t => by
    rw [splitLines]
    split
    · simp
    · rcases h : splitLines t with _ | ⟨x, xs⟩ <;> simp [h]

theorem splitLines_append : ∀ (x y : Chars),
    splitLines (x ++ '\n' :: y) = splitLines x ++ splitLines y
  | [], y => by simp [splitLines]
  | c :: t, y => by
    have ih := splitLines_append t y
    by_cases hc : c = '\n'
    · subst hc
      simp [splitLines, ih]
    · rcases h : splitLines t with _ | ⟨x, xs⟩
      · exact absurd h (splitLines_ne_nil t)
      · simp [splitLines, hc, ih, h]

theorem takeBlock_append_of_header :
    ∀ (xs : List Chars) (hd : Chars) (tl : List Chars),
      (headerNum hd).isSome → takeBlock (xs ++ hd :: tl) = takeBlock xs
  | [], hd, tl, h => by simp [takeBlock, h]
  | l :: xs, hd, tl, h => by
    by_cases hl : (headerNum l).isSome
    · simp [takeBlock, hl]
    · simp [takeBlock, hl, takeBlock_append_of_header xs hd tl h]

theorem blocksFrom_cons_none (l : Chars) (ls : List Chars)
    (hn : headerNum l = none) : blocksFrom (l :: ls) = blocksFrom ls := by
  have h1 : blocksFrom (l :: ls) =
      match headerNum l with
      | some n => if ls = [] then [] else (n, takeBlock ls) :: blocksFrom ls
      | none => blocksFrom ls := rfl
  rw [h1, hn]

theorem blocksFrom_cons_some (l n : Chars) (ls : List Chars)
    (hn : headerNum l = some n) (hls : ls ≠ []) :
    blocksFrom (l :: ls) = (n, takeBlock ls) :: blocksFrom ls := by
  have h1 : blocksFrom (l :: ls) =
      match headerNum l with
      | some n => if ls = [] then [] else (n, takeBlock ls) :: blocksFrom ls
      | none => blocksFrom ls := rfl
  rw [h1, hn]
  simp [hls]

theorem blocksFrom_append :
    ∀ (la : List Chars) (hd : Chars) (tl : List Chars),
      (headerNum hd).isSome →
      (∀ x, la.getLast? = some x → (headerNum x).isNone) →
      blocksFrom (la ++ hd :: tl) = blocksFrom la ++ blocksFrom (hd :: tl)
  | [], hd, tl, _, _ => by simp [blocksFrom]
  | l :: la2, hd, tl, hh, hlast => by
    rcases hn : headerNum l with _ | n
    · have hlast2 : ∀ x, la2.getLast? = some x → (headerNum x).isNone := by
        intro x hx
        apply hlast
        rcases la2 with _ | ⟨z, zs⟩
        · simp at hx
        · rw [List.getLast?_cons_cons]; exact hx
      rw [List.cons_append, blocksFrom_cons_none l _ hn,
        blocksFrom_cons_none l la2 hn]
      exact blocksFrom_append la2 hd tl hh hlast2
    · rcases la2 with _ | ⟨m2, la3⟩
      · exfalso
        have h1 := hlast l (by simp)
        rw [hn] at h1
        simp at h1
      · have hlast2 : ∀ x, (m2 :: la3).getLast? = some x →
            (headerNum x).isNone := by
          intro x hx
          apply hlast
          rw [List.getLast?_cons_cons]; exact hx
        rw [List.cons_append,
          blocksFrom_cons_some l n _ hn (by simp),
          blocksFrom_cons_some l n (m2 :: la3) hn (by simp),
          takeBlock_append_of_header (m2 :: la3) hd tl hh,
          blocksFrom_append (m2 :: la3) hd tl hh hlast2,
          List.cons_append]

/-- C7 (amended): the parser is a total function (never throws); a block
whose correct-answer line is missing silently defaults the answer to option
A (index `0`) and still carries `reviewStatus = reviewed` — no data-quality
flag or log is produced, contrary to the claim's flagging clause (see the
counterexample); and blocks are independent: any document tail starting
with a header line parses the same after any (possibly malformed) prefix
whose last line is not a header, so a malformed block never prevents later
blocks from being parsed. -/
theorem C7_parser_recovery (a b : String) (num : Chars) (lines : List Chars)
    (ha : lastLineIsHeader a = false) (hb : firstLineIsHeader b = true)
    (hans : firstSome scanAnswer lines = none) :
    parseMarkdownQuestions (a ++ "\n" ++ b) =
      parseMarkdownQuestions a ++ parseMarkdownQuestions b ∧
    (parseBlock num lines).correctAnswerIndex = 0 ∧
    (parseBlock num lines).reviewStatus = "reviewed" := by
  refine ⟨?_, ?_, rfl⟩
  · unfold parseMarkdownQuestions
    have hdata : (a ++ "\n" ++ b).data = a.data ++ '\n' :: b.data := by
      have h1 : (a ++ "\n" ++ b).data = (a.data ++ ['\n']) ++ b.data := rfl
      rw [h1, List.append_assoc]
      rfl
    rw [hdata, splitLines_append]
    rcases hsb : splitLines b.data with _ | ⟨hd, tl⟩
    · exact absurd hsb (splitLines_ne_nil _)
    · have hhd : (headerNum hd).isSome := by
        have h2 := hb
        unfold firstLineIsHeader at h2
        rw [hsb] at h2
        simpa using h2
      have hlast : ∀ x, (splitLines a.data).getLast? = some x →
          (headerNum x).isNone := by
        intro x hx
        have h2 := ha
        unfold lastLineIsHeader at h2
        rw [hx] at h2
        simpa using h2
      rw [blocksFrom_append _ hd tl hhd hlast, List.map_append]
  · have h3 : (parseBlock num lines).correctAnswerIndex =
        (firstSome scanAnswer lines).getD 0 := rfl
    rw [h3, hans]
    rfl

/-- The single block line used to witness the answer-defaulting clause. -/
def exNoAnswerLine : List Chars := ["no answer here".data]

theorem C7_parser_recovery_witness :
    lastLineIsHeader exRecoveryA = false ∧
    firstLineIsHeader exRecoveryB = true ∧
    firstSome scanAnswer exNoAnswerLine = none ∧
    (parseMarkdownQuestions (exRecoveryA ++ "\n" ++ exRecoveryB) =
      parseMarkdownQuestions exRecoveryA ++
        parseMarkdownQuestions exRecoveryB ∧
    (parseBlock ['9'] exNoAnswerLine).correctAnswerIndex = 0 ∧
    (parseBlock ['9'] exNoAnswerLine).reviewStatus = "reviewed") :=
  ⟨by decide, by decide, by decide,
    C7_parser_recovery exRecoveryA exRecoveryB ['9'] exNoAnswerLine
      (by decide) (by decide) (by decide)⟩

/-- C7 counterexample: on `exDocNoAnswer` (a block with no correct-answer
line) the parser defaults the answer to index `0` but records
`reviewStatus = reviewed` — the same status as any well-formed block — and
produces no data-quality flag, so the defaulting is silent, contrary to the
claim that the default is logged/flagged. -/
theorem C7_counterexample :
    (∀ l ∈ splitLines exDocNoAnswer.data, scanAnswer l = none) ∧
    (parseMarkdownQuestions exDocNoAnswer).map
        (fun q => (q.correctAnswerIndex, q.reviewStatus)) =
      [(0, "reviewed")] ∧
    "reviewed" ≠ "needs_review" := by decide

theorem topicFrac_nonneg (st : Tally) : 0 ≤ topicFrac st := by
  unfold topicFrac
  split
  · positivity
  · exact le_refl 0

theorem firstStrictMax_cons (e : String × Tally) (t : TMap) (bp : ℚ) :
    firstStrictMax bp (e :: t) =
      if bp < topicFrac e.2 then
        match firstStrictMax (topicFrac e.2) t with
        | none => some e
        | some b => some b
      else firstStrictMax bp t := rfl

theorem bestTopicLoop_cons (e : String × Tally) (t : TMap) (bt : String)
    (bp : ℚ) :
    bestTopicLoop bt bp (e :: t) =
      if bp < topicFrac e.2 then
        bestTopicLoop (secondWord e.1) (topicFrac e.2) t
      else bestTopicLoop bt bp t := rfl

theorem bestTopicLoop_eq : ∀ (l : TMap) (bt : String) (bp : ℚ),
    bestTopicLoop bt bp l =
      match firstStrictMax bp l with
      | none => bt
      | some e => secondWord e.1
  | [], _, _ => rfl
  | e :: t, bt, bp => by
    rw [bestTopicLoop_cons, firstStrictMax_cons]
    by_cases hlt : bp < topicFrac e.2
    · rw [if_pos hlt, if_pos hlt,
        bestTopicLoop_eq t (secondWord e.1) (topicFrac e.2)]
      rcases hf : firstStrictMax (topicFrac e.2) t with _ | b <;> simp
    · rw [if_neg hlt, if_neg hlt]
      exact bestTopicLoop_eq t bt bp

theorem firstStrictMax_none : ∀ (l : TMap) (bp : ℚ),
    firstStrictMax bp l = none → ∀ e ∈ l, topicFrac e.2 ≤ bp
  | [], _, _ => by simp
  | e :: t, bp, h => by
    rw [firstStrictMax_cons] at h
    by_cases hlt : bp < topicFrac e.2
    · rw [if_pos hlt] at h
      rcases hf : firstStrictMax (topicFrac e.2) t with _ | b <;>
        rw [hf] at h <;> simp at h
    · rw [if_neg hlt] at h
      intro x hx
      rcases List.mem_cons.mp hx with hxe | hx2
      · rw [hxe]; exact le_of_not_lt hlt
      · exact firstStrictMax_none t bp h x hx2

theorem firstStrictMax_some : ∀ (l : TMap) (bp : ℚ) (b : String × Tally),
    firstStrictMax bp l = some b →
      bp < topicFrac b.2 ∧ (∀ x ∈ l, topicFrac x.2 ≤ topicFrac b.2) ∧
      ∃ pre post, l = pre ++ b :: post ∧
        ∀ x ∈ pre, topicFrac x.2 < topicFrac b.2
  | [], bp, b, h => by simp [firstStrictMax] at h
  | e :: t, bp, b, h => by
    rw [firstStrictMax_cons] at h
    by_cases hlt : bp < topicFrac e.2
    · rw [if_pos hlt] at h
      rcases hf : firstStrictMax (topicFrac e.2) t with _ | bb
      · rw [hf] at h
        injection h with h2
        subst h2
        have hall := firstStrictMax_none t (topicFrac e.2) hf
        refine ⟨hlt, ?_, [], t, rfl, by simp⟩
        intro x hx
        rcases List.mem_cons.mp hx with hxe | hx2
        · rw [hxe]
        · exact hall x hx2
      · rw [hf] at h
        injection h with h2
        obtain ⟨hgt, hall, pre, post, heq, hpre⟩ :=
          firstStrictMax_some t (topicFrac e.2) bb hf
        rw [h2] at hgt hall heq hpre
        refine ⟨lt_trans hlt hgt, ?_, e :: pre, post, by rw [heq]; rfl, ?_⟩
        · intro x hx
          rcases List.mem_cons.mp hx with hxe | hx2
          · rw [hxe]; exact le_of_lt hgt
          · exact hall x hx2
        · intro x hx
          rcases List.mem_cons.mp hx with hxe | hx2
          · rw [hxe]; exact hgt
          · exact hpre x hx2
    · rw [if_neg hlt] at h
      obtain ⟨hgt, hall, pre, post, heq, hpre⟩ := firstStrictMax_some t bp b h
      refine ⟨hgt, ?_, e :: pre, post, by rw [heq]; rfl, ?_⟩
      · intro x hx
        rcases List.mem_cons.mp hx with hxe | hx2
        · rw [hxe]
          exact le_of_lt (lt_of_le_of_lt (le_of_not_lt hlt) hgt)
        · exact hall x hx2
      · intro x hx
        rcases List.mem_cons.mp hx with hxe | hx2
        · rw [hxe]
          exact lt_of_le_of_lt (le_of_not_lt hlt) hgt
        · exact hpre x hx2

/-- C10 (amended): on an empty history the three sentinels are returned; on
a non-empty history the most-recent figure is the first entry's percentage
and the average is the rounded unweighted mean; the winning topic is the
first entry of the combined totals attaining the maximal correct/total
quotient (so ties are broken by encounter order), but the *returned label*
is `topic.split(' ')[1] || topic` — the second space-separated word of the
winning topic's name when there is one — rather than the topic label
itself (see the counterexample). -/
theorem C10_trend (history : List ExamResult) (h0 : ExamResult)
    (rest : List ExamResult) (hh : history = h0 :: rest) :
    getStats ([] : List ExamResult) = ⟨"--", "0%", "N/A"⟩ ∧
    (getStats history).last = toString h0.percentage ++ "%" ∧
    (getStats history).avg = toString (round
      ((((history.map (fun h => h.percentage)).sum : ℤ) : ℚ) /
        (history.length : ℚ))) ++ "%" ∧
    (combinedTotals history = [] → (getStats history).bestTopic = "N/A") ∧
    (combinedTotals history ≠ [] →
      ∃ pre b post, combinedTotals history = pre ++ b :: post ∧
        (getStats history).bestTopic = secondWord b.1 ∧
        (∀ x ∈ combinedTotals history, topicFrac x.2 ≤ topicFrac b.2) ∧
        (∀ x ∈ pre, topicFrac x.2 < topicFrac b.2)) := by
  subst hh
  have hbt : (getStats (h0 :: rest)).bestTopic =
      bestTopicLoop "N/A" (-1) (combinedTotals (h0 :: rest)) := rfl
  refine ⟨rfl, rfl, rfl, ?_, ?_⟩
  · intro hemp
    rw [hbt, hemp]
    rfl
  · intro hne
    rcases hf : firstStrictMax (-1) (combinedTotals (h0 :: rest)) with _ | b
    · exfalso
      rcases hcl : combinedTotals (h0 :: rest) with _ | ⟨e, t⟩
      · exact hne hcl
      · rw [hcl, firstStrictMax_cons] at hf
        have hlt : (-1 : ℚ) < topicFrac e.2 :=
          lt_of_lt_of_le (by norm_num) (topicFrac_nonneg e.2)
        rw [if_pos hlt] at hf
        rcases hf2 : firstStrictMax (topicFrac e.2) t with _ | bb <;>
          rw [hf2] at hf <;> simp at hf
    · obtain ⟨_, hall, pre, post, heq, hpre⟩ := firstStrictMax_some _ _ _ hf
      refine ⟨pre, b, post, heq, ?_, hall, hpre⟩
      rw [hbt, bestTopicLoop_eq, hf]

theorem C10_trend_witness :
    (wHist = wHist.headI :: wHist.tail ∧
      (getStats wHist).avg = toString (round
        ((((wHist.map (fun h => h.percentage)).sum : ℤ) : ℚ) /
          (wHist.length : ℚ))) ++ "%") ∧
    (combinedTotals wHist ≠ [] →
      ∃ pre b post, combinedTotals wHist = pre ++ b :: post ∧
        (getStats wHist).bestTopic = secondWord b.1 ∧
        (∀ x ∈ combinedTotals wHist, topicFrac x.2 ≤ topicFrac b.2) ∧
        (∀ x ∈ pre, topicFrac x.2 < topicFrac b.2)) :=
  ⟨⟨rfl, (C10_trend wHist wHist.headI wHist.tail rfl).2.2.1⟩,
    (C10_trend wHist wHist.headI wHist.tail rfl).2.2.2.2⟩

/-- C10 counterexample: with a single history entry whose only — hence
strongest — topic is `Number Theory`, the returned best-topic label is
`Theory` (the second word), not the topic `Number Theory` the claim
promises. -/
theorem C10_counterexample :
    combinedTotals exHistoryMultiword = [("Number Theory", ⟨1, 1⟩)] ∧
    (getStats exHistoryMultiword).bestTopic = "Theory" ∧
    "Theory" ≠ "Number Theory" := by
  refine ⟨by decide, ?_, by decide⟩
  have h2 : combinedTotals exHistoryMultiword =
      [("Number Theory", (⟨1, 1⟩ : Tally))] := by decide
  have hbt : (getStats exHistoryMultiword).bestTopic =
      bestTopicLoop "N/A" (-1) (combinedTotals exHistoryMultiword) := rfl
  rw [hbt, h2, bestTopicLoop_cons]
  have h1 : topicFrac
      ((("Number Theory", (⟨1, 1⟩ : Tally)) : String × Tally)).2 = 1 := by
    simp [topicFrac]
  rw [h1, if_pos (by norm_num : (-1 : ℚ) < 1)]
  decide

end Eipi
